import Mathlib

/-!
Verification of the turn sequencer and edit-application engine of
`web-ui/src/simulation/simulators/StateServiceHumanSimulator.ts`.

The document is modelled as a list of lines, each line a list of
characters (JavaScript strings become `List Char`).  Positions are
1-indexed `(line, column)` pairs exactly as in the Monaco editor API.
Character-by-character typing (`simulateTypingWithDelay`, which inserts
one character per `editor.trigger 'type'` call) is modelled as a fold of
a single-character insertion over the typed text; the random inter-key
delays are timing-only and do not affect the resulting document state.
An exception thrown mid-typing is modelled by an optional fuel value: a
throw after `k` characters leaves the prefix of length `k` inserted and
reports the throw to the caller, so the `try`/`finally` structure of the
source can be reproduced faithfully.
-/

namespace CodeAssist

/-- JavaScript whitespace test used by `trim`, `trimStart`. -/
def isWs (c : Char) : Bool := c.isWhitespace

/-- JavaScript `String.prototype.trimStart`. -/
def jsTrimStart (l : List Char) : List Char := l.dropWhile isWs

/-- JavaScript `String.prototype.trimEnd`. -/
def jsTrimEnd (l : List Char) : List Char := (l.reverse.dropWhile isWs).reverse

/-- JavaScript `String.prototype.trim` (removes whitespace at both ends). -/
def jsTrim (l : List Char) : List Char := jsTrimEnd (jsTrimStart l)

/-- JavaScript `text.replace(/\n/g, ' ')`. -/
def nlToSpace (l : List Char) : List Char :=
  l.map (fun c => if c = '\n' then ' ' else c)

/-- JavaScript `text.split('\n')` on a character list; always nonempty,
`splitNl "a\n" = [['a'], []]` as in JavaScript. -/
def splitNl : List Char → List (List Char)
  | [] => [[]]
  | c :: cs =>
    match splitNl cs with
    | [] => [[]]
    | h :: t => if c = '\n' then [] :: h :: t else (c :: h) :: t

/-- A 1-indexed Monaco cursor position. -/
structure Pos where
  line : Nat
  column : Nat
deriving DecidableEq

/-- The mutable editor state the simulator operates on: the document
lines, the cursor, and the `isTyping` mutex flag of the simulator. -/
structure EdState where
  lines : List (List Char)
  cursor : Pos
  isTyping : Bool
deriving DecidableEq

/-- `model.getLineContent(l)` (1-indexed; out of range gives the empty
line, which the source never exercises on a live model). -/
def getLineContent (s : EdState) (l : Nat) : List Char :=
  s.lines.getD (l - 1) []

/-- Replace line `l` (1-indexed) of `lines` by the block `repl`. -/
def setLineAt (lines : List (List Char)) (l : Nat) (repl : List (List Char)) :
    List (List Char) :=
  lines.take (l - 1) ++ repl ++ lines.drop l

/-- Effect of one `editor.trigger('simulation', 'type', {text: ch})`
call: insert `ch` at the cursor; a newline splits the current line and
moves the cursor to the start of the next line. -/
def typeChar (s : EdState) (ch : Char) : EdState :=
  let l := s.cursor.line
  let c := s.cursor.column
  let cur := getLineContent s l
  let before := cur.take (c - 1)
  let after := cur.drop (c - 1)
  if ch = '\n' then
    { s with lines := setLineAt s.lines l [before, after], cursor := ⟨l + 1, 1⟩ }
  else
    { s with lines := setLineAt s.lines l [before ++ [ch] ++ after],
             cursor := ⟨l, c + 1⟩ }

/-- Net document effect of `simulateTypingWithDelay(text)`: the
characters are inserted one at a time at the cursor. -/
def typeString (s : EdState) (text : List Char) : EdState :=
  text.foldl typeChar s

/-- The portion of `text` actually inserted before an exception: `none`
means the typing loop ran to completion, `some k` models a throw after
`k` characters were typed. -/
def typedText (fuel : Option Nat) (text : List Char) : List Char :=
  match fuel with
  | none => text
  | some k => text.take k

/-- `editor.executeEdits` with a single-line range
`(l, c1)`–`(l, c2)` replaced by `repl`. -/
def replaceRangeInLine (s : EdState) (l c1 c2 : Nat) (repl : List Char) :
    EdState :=
  let cur := getLineContent s l
  { s with lines := setLineAt s.lines l [cur.take (c1 - 1) ++ repl ++ cur.drop (c2 - 1)] }

/-- `getIndentationLevel`: `line.length - line.trimStart().length`. -/
def getIndentationLevel (line : List Char) : Nat :=
  line.length - (jsTrimStart line).length

/-- `getIndentation`: `line.substring(0, indentLevel)`. -/
def getIndentation (line : List Char) : List Char :=
  line.take (getIndentationLevel line)

/-- `moveCursorToEndOfFile`: cursor after the last character of the last
line. -/
def moveCursorToEndOfFile (s : EdState) : EdState :=
  let lastLine := s.lines.length
  { s with cursor := ⟨lastLine, (getLineContent s lastLine).length + 1⟩ }

/-- Action 1, `fillPartialLine`: newlines of the payload collapsed to
spaces and the result trimmed, then typed at the given position.  The
returned flag reports whether the typing threw (fuel exhausted). -/
def fillPartialLine (fuel : Option Nat) (text : List Char) (pos : Pos)
    (s : EdState) : EdState × Bool :=
  if s.isTyping then (s, false)
  else
    let s1 : EdState := { s with isTyping := true }
    let clean := jsTrim (nlToSpace text)
    let s2 : EdState := { s1 with cursor := pos }
    let s3 := typeString s2 (typedText fuel clean)
    ({ s3 with isTyping := false }, fuel.isSome)

/-- Actions 2 and 3, `replaceAndAppendLine`: clear the current line
after its indentation via `executeEdits`, put the cursor after the
indentation, and type the payload with the first line `trim`med and the
following lines prefixed by the indentation. -/
def replaceAndAppendLine (fuel : Option Nat) (text : List Char) (pos : Pos)
    (s : EdState) : EdState × Bool :=
  if s.isTyping then (s, false)
  else
    let s1 : EdState := { s with isTyping := true }
    let cur := getLineContent s1 pos.line
    let ind := getIndentation cur
    let s2 := replaceRangeInLine s1 pos.line (ind.length + 1) (cur.length + 1) []
    let s3 : EdState := { s2 with cursor := ⟨pos.line, ind.length + 1⟩ }
    let formatted :=
      match splitNl text with
      | [] => []
      | t0 :: rest =>
        List.intercalate ['\n'] (jsTrim t0 :: rest.map (fun ln => ind ++ ln))
    let s4 := typeString s3 (typedText fuel formatted)
    ({ s4 with isTyping := false }, fuel.isSome)

/-- Action 4, `editExistingLines`: like `replaceAndAppendLine` but at an
explicit 1-indexed target line; out-of-bounds targets fall back to
`replaceAndAppendLine` at the current cursor; on success the cursor is
moved to the end of the file (skipped when the typing threw, as the
`moveCursorToEndOfFile` call sits after the `await` in the `try`). -/
def editExistingLines (fuel : Option Nat) (text : List Char) (targetLine : Int)
    (s : EdState) : EdState × Bool :=
  if s.isTyping then (s, false)
  else if targetLine < 1 ∨ (s.lines.length : Int) < targetLine then
    replaceAndAppendLine fuel text s.cursor s
  else
    let s1 : EdState := { s with isTyping := true }
    let ln := targetLine.toNat
    let cur := getLineContent s1 ln
    let ind := getIndentation cur
    let s2 := replaceRangeInLine s1 ln (ind.length + 1) (cur.length + 1) []
    let s3 : EdState := { s2 with cursor := ⟨ln, ind.length + 1⟩ }
    let formatted :=
      match splitNl text with
      | [] => []
      | t0 :: rest =>
        List.intercalate ['\n'] (jsTrim t0 :: rest.map (fun l2 => ind ++ l2))
    let s4 := typeString s3 (typedText fuel formatted)
    match fuel with
    | some _ => ({ s4 with isTyping := false }, true)
    | none => ({ moveCursorToEndOfFile s4 with isTyping := false }, false)

/-- Action 5, `addInlineComment`: append an inline `#` comment at the
end of the current line (leading space unless the line is blank). -/
def addInlineComment (fuel : Option Nat) (text : List Char) (pos : Pos)
    (s : EdState) : EdState × Bool :=
  if s.isTyping then (s, false)
  else
    let s1 : EdState := { s with isTyping := true }
    let cur := getLineContent s1 pos.line
    let clean := jsTrim (nlToSpace text)
    let commentText :=
      if jsTrim cur = [] then '#' :: ' ' :: clean else ' ' :: '#' :: ' ' :: clean
    let s2 : EdState := { s1 with cursor := ⟨pos.line, cur.length + 1⟩ }
    let s3 := typeString s2 (typedText fuel commentText)
    ({ s3 with isTyping := false }, fuel.isSome)

/-- Action 6, `addCommentAtLine`: insert `#`-prefixed comment lines at
the start of an explicit target line, each carrying that line's
indentation; out-of-bounds targets fall back to `addInlineComment` at
the current cursor; on success the cursor is moved to the end of the
file. -/
def addCommentAtLine (fuel : Option Nat) (text : List Char) (targetLine : Int)
    (s : EdState) : EdState × Bool :=
  if s.isTyping then (s, false)
  else if targetLine < 1 ∨ (s.lines.length : Int) < targetLine then
    addInlineComment fuel text s.cursor s
  else
    let s1 : EdState := { s with isTyping := true }
    let ln := targetLine.toNat
    let ind := getIndentation (getLineContent s1 ln)
    let s2 : EdState := { s1 with cursor := ⟨ln, 1⟩ }
    let formatted :=
      List.intercalate ['\n']
        ((splitNl text).map (fun l2 => ind ++ '#' :: ' ' :: jsTrim l2)) ++ ['\n']
    let s3 := typeString s2 (typedText fuel formatted)
    match fuel with
    | some _ => ({ s3 with isTyping := false }, true)
    | none => ({ moveCursorToEndOfFile s3 with isTyping := false }, false)

/-- The `default` arm of `applyAction`: raw character typing of the
payload under the typing lock. -/
def rawTypeFallback (fuel : Option Nat) (text : List Char) (s : EdState) :
    EdState × Bool :=
  if s.isTyping then (s, false)
  else
    let s1 : EdState := { s with isTyping := true }
    let s2 := typeString s1 (typedText fuel text)
    ({ s2 with isTyping := false }, fuel.isSome)

/-- The `catch` arm of `applyAction`: type a single newline under the
typing lock (the recovery completes, so no fuel parameter). -/
def errNewlineFallback (s : EdState) : EdState :=
  if s.isTyping then s
  else
    let s1 : EdState := { s with isTyping := true }
    let s2 := typeString s1 ['\n']
    { s2 with isTyping := false }

/-- The seven-way dispatch of `applyAction`, as an enumeration of the
control path taken for a given action index. -/
inductive ActionPath where
  | noOp
  | fillPartial
  | replaceAppend
  | editLines
  | inlineComment
  | commentAtLine
  | fallbackTyping
deriving DecidableEq

/-- Which arm of the `switch (actionIndex)` in `applyAction` handles a
given index. -/
def applyActionPath (idx : Int) : ActionPath :=
  if idx = 0 then ActionPath.noOp
  else if idx = 1 then ActionPath.fillPartial
  else if idx = 2 ∨ idx = 3 then ActionPath.replaceAppend
  else if idx = 4 then ActionPath.editLines
  else if idx = 5 then ActionPath.inlineComment
  else if idx = 6 then ActionPath.commentAtLine
  else ActionPath.fallbackTyping

/-- Body of the `try` block of `applyAction`: the `switch` over the
action index. -/
def applyActionCore (fuel : Option Nat) (idx targetLine : Int)
    (text : List Char) (pos : Pos) (s : EdState) : EdState × Bool :=
  if idx = 0 then (s, false)
  else if idx = 1 then fillPartialLine fuel text pos s
  else if idx = 2 ∨ idx = 3 then replaceAndAppendLine fuel text pos s
  else if idx = 4 then editExistingLines fuel text targetLine s
  else if idx = 5 then addInlineComment fuel text pos s
  else if idx = 6 then addCommentAtLine fuel text targetLine s
  else rawTypeFallback fuel text s

/-- `applyAction`: the `switch` wrapped in `try`/`catch`; a throw from
the selected arm is recovered by typing a newline. -/
def applyAction (fuel : Option Nat) (idx targetLine : Int) (text : List Char)
    (pos : Pos) (s : EdState) : EdState :=
  let r := applyActionCore fuel idx targetLine text pos s
  if r.2 then errNewlineFallback r.1 else r.1

/-- Rendering of the REPLACE_AND_APPEND behaviour exactly as the spec
claim words it: the current line's content after its leading indentation
is cleared (the line becomes its indentation), the cursor is placed just
after the indentation, and the payload is typed with its first line
trimmed of its LEADING whitespace only and every later line prefixed
with the original indentation.  Used to compare the claim against the
source translation `replaceAndAppendLine`. -/
def replaceAndAppendClaimSpec (fuel : Option Nat) (text : List Char) (pos : Pos)
    (s : EdState) : EdState × Bool :=
  if s.isTyping then (s, false)
  else
    let s1 : EdState := { s with isTyping := true }
    let cur := getLineContent s1 pos.line
    let ind := getIndentation cur
    let s2 : EdState := { s1 with lines := setLineAt s1.lines pos.line [ind] }
    let s3 : EdState := { s2 with cursor := ⟨pos.line, ind.length + 1⟩ }
    let formatted :=
      match splitNl text with
      | [] => []
      | t0 :: rest =>
        List.intercalate ['\n'] (jsTrimStart t0 :: rest.map (fun ln => ind ++ ln))
    let s4 := typeString s3 (typedText fuel formatted)
    ({ s4 with isTyping := false }, fuel.isSome)

/-- Rendering of the amended claim: as `replaceAndAppendClaimSpec`, but
the first payload line is trimmed of leading AND trailing whitespace
(JavaScript `trim`), which is what the source does. -/
def replaceAndAppendAmendedSpec (fuel : Option Nat) (text : List Char)
    (pos : Pos) (s : EdState) : EdState × Bool :=
  if s.isTyping then (s, false)
  else
    let s1 : EdState := { s with isTyping := true }
    let cur := getLineContent s1 pos.line
    let ind := getIndentation cur
    let s2 : EdState := { s1 with lines := setLineAt s1.lines pos.line [ind] }
    let s3 : EdState := { s2 with cursor := ⟨pos.line, ind.length + 1⟩ }
    let formatted :=
      match splitNl text with
      | [] => []
      | t0 :: rest =>
        List.intercalate ['\n'] (jsTrim t0 :: rest.map (fun ln => ind ++ ln))
    let s4 := typeString s3 (typedText fuel formatted)
    ({ s4 with isTyping := false }, fuel.isSome)

/-! ### Turn schedule (`startZeroStyleSequence`) -/

/-- The two logical actors of a turn. -/
inductive Actor where
  | human
  | assistant
deriving DecidableEq, BEq

/-- Turn attempts made by the `for i in [0, assistantLimit)` loop of
`startZeroStyleSequence` when no `stop()` interrupts the run: one human
turn then one assistant turn per iteration. -/
def zeroStylePairs : Nat → List Actor
  | 0 => []
  | n + 1 => Actor.human :: Actor.assistant :: zeroStylePairs n

/-- The complete sequence of turn attempts of `startZeroStyleSequence`
for an uninterrupted run: the paired loop over `assistantLimit`,
followed by `Math.max(1, humanFollowUpActions)` human-only turns. -/
def startZeroStyleSequence (assistantLimit followUp : Nat) : List Actor :=
  zeroStylePairs assistantLimit ++ List.replicate (max 1 followUp) Actor.human

/-! ### Constructor (`SimulationConfig` intake, lines 60-108) -/

/-- The numeric/boolean surface of `SimulationConfig` consumed by the
constructor.  `none` models an absent field, a field of a non-number
type, or `NaN` (all of which fail the `typeof`/comparison guards).
JavaScript numbers are modelled as integers for the count and delay
fields and as rationals for the probability-like fields. -/
structure SimulationConfig where
  maxAssistantActions : Option Int := none
  humanFollowUpActions : Option Int := none
  maxActions : Option Int := none
  assistantNoiseProbability : Option ℚ := none
  assistantNoiseTopK : Option Int := none
  assistantTemperature : Option ℚ := none
  assistantEpsilon : Option ℚ := none
  minActionDelayMs : Option Int := none
  maxActionDelayMs : Option Int := none
  postActionPauseMs : Option Int := none
  minTypingDelayMs : Option Int := none
  maxTypingDelayMs : Option Int := none
  intervalMs : Option Int := none
  durationMs : Option Int := none
  closeOnStop : Option Bool := none
deriving DecidableEq

/-- Effective `humanFollowUpActions` (constructor lines 64-72): when
`maxAssistantActions` is defined the follow-up count is
`Math.max(1, provided ?? 1)`; otherwise `Math.max(0, ...)` of the first
defined of `humanFollowUpActions`, `maxActions`, defaulting to 0. -/
def effHumanFollowUp (cfg : SimulationConfig) : Int :=
  match cfg.maxAssistantActions with
  | some _ => max 1 (cfg.humanFollowUpActions.getD 1)
  | none =>
    match cfg.humanFollowUpActions with
    | some v => max 0 v
    | none =>
      match cfg.maxActions with
      | some m => max 0 m
      | none => 0

/-- Effective `minActionDelayMs` (default 350; a provided value is used
only when it is a number `>= 0`). -/
def effMinActionDelay (cfg : SimulationConfig) : Int :=
  match cfg.minActionDelayMs with
  | some v => if 0 ≤ v then v else 350
  | none => 350

/-- Effective `maxActionDelayMs` (default 900; a provided value is used
only when it is a number `>=` the EFFECTIVE minimum). -/
def effMaxActionDelay (cfg : SimulationConfig) : Int :=
  match cfg.maxActionDelayMs with
  | some v => if effMinActionDelay cfg ≤ v then v else 900
  | none => 900

/-- Effective `minTypingDelayMs` (default 45). -/
def effMinTypingDelay (cfg : SimulationConfig) : Int :=
  match cfg.minTypingDelayMs with
  | some v => if 0 ≤ v then v else 45
  | none => 45

/-- Effective `maxTypingDelayMs` (default 130; a provided value is used
only when it is `>=` the effective minimum). -/
def effMaxTypingDelay (cfg : SimulationConfig) : Int :=
  match cfg.maxTypingDelayMs with
  | some v => if effMinTypingDelay cfg ≤ v then v else 130
  | none => 130

/-- Effective `postActionPauseMs` (default 1400). -/
def effPostActionPause (cfg : SimulationConfig) : Int :=
  match cfg.postActionPauseMs with
  | some v => if 0 ≤ v then v else 1400
  | none => 1400

/-- Effective `assistantNoiseProbability`: clamped into `[0, 1]`,
default 0. -/
def effNoiseProbability (cfg : SimulationConfig) : ℚ :=
  match cfg.assistantNoiseProbability with
  | some p => min (max p 0) 1
  | none => 0

/-- Effective `assistantNoiseTopK`: `Math.floor` then, when positive,
clamped to at most 7; default 3.  (`Math.floor` is the identity on the
integer model.) -/
def effNoiseTopK (cfg : SimulationConfig) : Int :=
  match cfg.assistantNoiseTopK with
  | some v => if 0 < v then min v 7 else 3
  | none => 3

/-- Effective `assistantTemperature`: kept only when `> 0`. -/
def effTemperature (cfg : SimulationConfig) : Option ℚ :=
  match cfg.assistantTemperature with
  | some t => if 0 < t then some t else none
  | none => none

/-- Effective `assistantEpsilon`: kept only when `>= 0`. -/
def effEpsilon (cfg : SimulationConfig) : Option ℚ :=
  match cfg.assistantEpsilon with
  | some e => if 0 ≤ e then some e else none
  | none => none

/-- The private fields of the simulator fixed by the constructor. -/
structure SimulatorFields where
  maxAssistantActions : Option Int
  humanFollowUpActions : Int
  assistantNoiseProbability : ℚ
  assistantNoiseTopK : Int
  assistantTemperature : Option ℚ
  assistantEpsilon : Option ℚ
  minActionDelayMs : Int
  maxActionDelayMs : Int
  postActionPauseMs : Int
  minTypingDelayMs : Int
  maxTypingDelayMs : Int
  closeOnStop : Bool
deriving DecidableEq

/-- The constructor of `StateServiceHumanSimulator` (lines 60-108). -/
def mkSimulator (cfg : SimulationConfig) : SimulatorFields where
  maxAssistantActions := cfg.maxAssistantActions.map (fun v => max 0 v)
  humanFollowUpActions := effHumanFollowUp cfg
  assistantNoiseProbability := effNoiseProbability cfg
  assistantNoiseTopK := effNoiseTopK cfg
  assistantTemperature := effTemperature cfg
  assistantEpsilon := effEpsilon cfg
  minActionDelayMs := effMinActionDelay cfg
  maxActionDelayMs := effMaxActionDelay cfg
  postActionPauseMs := effPostActionPause cfg
  minTypingDelayMs := effMinTypingDelay cfg
  maxTypingDelayMs := effMaxTypingDelay cfg
  closeOnStop := cfg.closeOnStop.getD false

/-! ### Turn execution and the processing lock -/

/-- Simulator state seen by `executeAction`: the editor state plus the
processing lock, the action counter of `SimulationStats`, and the
inference timestep. -/
structure SimState where
  ed : EdState
  isProcessing : Bool
  totalActions : Nat
  timestep : Nat
deriving DecidableEq

/-- The `\n`-typing recovery used by `generateAndApplyHumanAction` when
the inference call fails or returns no action. -/
def noActionNewline (fuel : Option Nat) (e : EdState) : EdState :=
  if e.isTyping then e
  else
    let e1 : EdState := { e with isTyping := true }
    let e2 := typeString e1 (typedText fuel ['\n'])
    { e2 with isTyping := false }

/-- `generateAndApplyHumanAction`: skip immediately when the processing
lock is held; otherwise take the lock, consume a timestep, apply the
oracle's action at the current cursor (or type a newline when the oracle
yields nothing), and release the lock.  The oracle stands for the
`inference_human` response: `some (actionIndex, targetLine, payload)`,
or `none` for a missing/failed response. -/
def generateAndApplyHumanAction (oracle : Option (Int × Int × List Char))
    (fuel : Option Nat) (s : SimState) : SimState :=
  if s.isProcessing then s
  else
    let s1 : SimState := { s with isProcessing := true, timestep := s.timestep + 1 }
    let s2 : SimState :=
      match oracle with
      | some (idx, tgt, text) =>
        { s1 with ed := applyAction fuel idx tgt text s1.ed.cursor s1.ed }
      | none => { s1 with ed := noActionNewline fuel s1.ed }
    { s2 with isProcessing := false }

/-- `generateAndApplyAssistantAction`: as the human variant, except a
missing response is only logged (no newline fallback). -/
def generateAndApplyAssistantAction (oracle : Option (Int × Int × List Char))
    (fuel : Option Nat) (s : SimState) : SimState :=
  if s.isProcessing then s
  else
    let s1 : SimState := { s with isProcessing := true, timestep := s.timestep + 1 }
    let s2 : SimState :=
      match oracle with
      | some (idx, tgt, text) =>
        { s1 with ed := applyAction fuel idx tgt text s1.ed.cursor s1.ed }
      | none => s1
    { s2 with isProcessing := false }

/-- The two scheduled turn kinds dispatched by `executeAction`. -/
inductive TurnKind where
  | humanTurn
  | assistantTurn
deriving DecidableEq

/-- `executeAction`: dispatch the turn, then increment
`stats.totalActions` unconditionally (line 330 runs after the `switch`
whether or not the turn was skipped). -/
def executeAction (kind : TurnKind) (oracle : Option (Int × Int × List Char))
    (fuel : Option Nat) (s : SimState) : SimState :=
  let s1 :=
    match kind with
    | TurnKind.humanTurn => generateAndApplyHumanAction oracle fuel s
    | TurnKind.assistantTurn => generateAndApplyAssistantAction oracle fuel s
  { s1 with totalActions := s1.totalActions + 1 }

/-! ### `stop()` (lines 155-171: the synchronous state mutation) -/

/-- Sequencer-level state mutated by `stop()`.  The shutdown handshake
and `closeOnStop` behaviour that follow the mutation are modelled
separately by the handshake state machine below; the second of two
back-to-back `stop()` calls returns before reaching them. -/
structure SeqState where
  isRunning : Bool
  isProcessing : Bool
  intervalActive : Bool
  startTime : Int
  totalDurationMs : Int
  lastRunTime : Option Int
deriving DecidableEq

/-- The synchronous state change of `stop()` at wall-clock time `now`:
a no-op when not running, otherwise the running/processing flags are
cleared, the interval timer cancelled, and the elapsed duration
accumulated. -/
def stop (now : Int) (s : SeqState) : SeqState :=
  if s.isRunning then
    { s with isRunning := false, isProcessing := false, intervalActive := false,
             totalDurationMs := s.totalDurationMs + (now - s.startTime),
             lastRunTime := some now }
  else s

/-! ### The shutdown handshake (lines 173-214) -/

/-- State of the one-shot completion signal built inside `stop()`:
whether `resolved` has been latched, whether the 2000 ms fallback
timeout is still pending, and how many times `resolve` has run. -/
structure HandshakeState where
  resolved : Bool
  timeoutPending : Bool
  resolveCount : Nat
deriving DecidableEq

/-- `resolveAndClear`: latch `resolved`, clear any pending timeout, and
run `resolve` — all guarded by the `resolved` flag. -/
def resolveAndClear (h : HandshakeState) : HandshakeState :=
  if h.resolved then h
  else { resolved := true, timeoutPending := false, resolveCount := h.resolveCount + 1 }

/-- `fallback`: the timeout handler; warns and delegates to
`resolveAndClear` unless already resolved. -/
def handshakeFallback (h : HandshakeState) : HandshakeState :=
  if h.resolved then h else resolveAndClear h

/-- External events that can drive the handshake: the listener invoking
the acknowledgment callback, or the 2000 ms timeout firing. -/
inductive HandshakeEvent where
  | listenerAck
  | timeoutFire
deriving DecidableEq

/-- One event step: an acknowledgment runs `resolveAndClear`; the
timeout, if still pending, fires once (consuming its pending status) and
runs `fallback`. -/
def handshakeStep (h : HandshakeState) : HandshakeEvent → HandshakeState
  | HandshakeEvent.listenerAck => resolveAndClear h
  | HandshakeEvent.timeoutFire =>
    if h.timeoutPending then handshakeFallback { h with timeoutPending := false }
    else h

/-- Handshake state right after `stop()` dispatched the
`zeroStyleSimulationStopping` event and scheduled the fallback. -/
def handshakeInit : HandshakeState :=
  { resolved := false, timeoutPending := true, resolveCount := 0 }

/-- The handshake after an arbitrary sequence of events. -/
def runHandshake (evs : List HandshakeEvent) : HandshakeState :=
  evs.foldl handshakeStep handshakeInit

/-- A cursor that addresses an existing document line (Monaco keeps the
cursor clamped to the document, so live states satisfy this). -/
def validCursor (s : EdState) : Prop :=
  1 ≤ s.cursor.line ∧ s.cursor.line ≤ s.lines.length

/-- Size measure of a document: total characters plus number of lines.
Every typed character (newline included) increases it by exactly one. -/
def docMeasure (lines : List (List Char)) : Nat :=
  (lines.map List.length).sum + lines.length

/-! ## Helper lemmas -/

lemma getIndentationLevel_le (l : List Char) : getIndentationLevel l ≤ l.length :=
  Nat.sub_le _ _

lemma length_getIndentation (l : List Char) :
    (getIndentation l).length = getIndentationLevel l := by
  simp only [getIndentation, List.length_take]
  exact Nat.min_eq_left (getIndentationLevel_le l)

lemma take_length_getIndentation (l : List Char) :
    l.take (getIndentation l).length = getIndentation l := by
  rw [length_getIndentation]; rfl

lemma typeChar_isTyping (s : EdState) (ch : Char) :
    (typeChar s ch).isTyping = s.isTyping := by
  unfold typeChar
  split <;> rfl

lemma typeString_isTyping (text : List Char) :
    ∀ s : EdState, (typeString s text).isTyping = s.isTyping := by
  induction text with
  | nil => intro s; rfl
  | cons c t ih =>
    intro s
    show (typeString (typeChar s c) t).isTyping = s.isTyping
    rw [ih, typeChar_isTyping]

lemma docMeasure_append (a b : List (List Char)) :
    docMeasure (a ++ b) = docMeasure a + docMeasure b := by
  simp [docMeasure]
  omega

lemma lines_decomp (lines : List (List Char)) (l : Nat)
    (h1 : 1 ≤ l) (h2 : l ≤ lines.length) :
    lines = lines.take (l - 1) ++ [lines.getD (l - 1) []] ++ lines.drop l := by
  have hlt : l - 1 < lines.length := by omega
  have hl : l - 1 + 1 = l := by omega
  have hd : lines.drop (l - 1) = lines.getD (l - 1) [] :: lines.drop l := by
    rw [List.getD_eq_getElem lines [] hlt, List.drop_eq_getElem_cons hlt, hl]
  conv_lhs => rw [← List.take_append_drop (l - 1) lines]
  rw [hd]
  simp

lemma take_drop_length (l : List Char) (n : Nat) :
    (l.take n).length + (l.drop n).length = l.length := by
  rw [List.length_take, List.length_drop]
  omega

lemma typeChar_measure (s : EdState) (ch : Char) (h : validCursor s) :
    docMeasure (typeChar s ch).lines = docMeasure s.lines + 1 ∧
    validCursor (typeChar s ch) := by
  obtain ⟨h1, h2⟩ := h
  have hdec := lines_decomp s.lines s.cursor.line h1 h2
  have hlen1 : (s.lines.take (s.cursor.line - 1)).length = s.cursor.line - 1 := by
    rw [List.length_take]; omega
  have hlen2 : (s.lines.drop s.cursor.line).length =
      s.lines.length - s.cursor.line := by
    rw [List.length_drop]
  have hbase : docMeasure s.lines =
      docMeasure (s.lines.take (s.cursor.line - 1)) +
      docMeasure [s.lines.getD (s.cursor.line - 1) []] +
      docMeasure (s.lines.drop s.cursor.line) := by
    conv_lhs => rw [hdec]
    rw [docMeasure_append, docMeasure_append]
  have hsplit := take_drop_length (getLineContent s s.cursor.line)
      (s.cursor.column - 1)
  unfold typeChar
  by_cases hch : ch = '\n'
  · simp only [hch, if_pos rfl]
    constructor
    · show docMeasure (setLineAt s.lines s.cursor.line _) = _
      unfold setLineAt
      rw [docMeasure_append, docMeasure_append, hbase]
      simp only [docMeasure, List.map, List.sum_cons, List.sum_nil,
        List.length_cons, List.length_nil, getLineContent] at *
      omega
    · constructor
      · show 1 ≤ s.cursor.line + 1
        omega
      · show s.cursor.line + 1 ≤ (setLineAt s.lines s.cursor.line _).length
        unfold setLineAt
        simp only [List.length_append, hlen1, hlen2, List.length_cons,
          List.length_nil]
        omega
  · rw [if_neg hch]
    constructor
    · show docMeasure (setLineAt s.lines s.cursor.line _) = _
      unfold setLineAt
      rw [docMeasure_append, docMeasure_append, hbase]
      simp only [docMeasure, List.map, List.sum_cons, List.sum_nil,
        List.length_cons, List.length_nil, List.length_append,
        getLineContent] at *
      omega
    · constructor
      · show 1 ≤ s.cursor.line
        omega
      · show s.cursor.line ≤ (setLineAt s.lines s.cursor.line _).length
        unfold setLineAt
        simp only [List.length_append, hlen1, hlen2, List.length_cons,
          List.length_nil]
        omega

lemma typeString_measure (text : List Char) :
    ∀ s : EdState, validCursor s →
      docMeasure (typeString s text).lines = docMeasure s.lines + text.length ∧
      validCursor (typeString s text) := by
  induction text with
  | nil => intro s h; exact ⟨by simp [typeString], h⟩
  | cons ch t ih =>
    intro s h
    have hc := typeChar_measure s ch h
    have ht := ih (typeChar s ch) hc.2
    refine ⟨?_, ht.2⟩
    show docMeasure (typeString (typeChar s ch) t).lines = _
    rw [ht.1, hc.1]
    simp only [List.length_cons]
    omega

lemma fillPartialLine_releases (fuel : Option Nat) (text : List Char) (pos : Pos)
    (s : EdState) (h : s.isTyping = false) :
    (fillPartialLine fuel text pos s).1.isTyping = false := by
  simp [fillPartialLine, h, typeString_isTyping]

lemma replaceAndAppendLine_releases (fuel : Option Nat) (text : List Char)
    (pos : Pos) (s : EdState) (h : s.isTyping = false) :
    (replaceAndAppendLine fuel text pos s).1.isTyping = false := by
  simp [replaceAndAppendLine, h, typeString_isTyping]

lemma addInlineComment_releases (fuel : Option Nat) (text : List Char)
    (pos : Pos) (s : EdState) (h : s.isTyping = false) :
    (addInlineComment fuel text pos s).1.isTyping = false := by
  simp [addInlineComment, h, typeString_isTyping]

lemma editExistingLines_releases (fuel : Option Nat) (text : List Char)
    (targetLine : Int) (s : EdState) (h : s.isTyping = false) :
    (editExistingLines fuel text targetLine s).1.isTyping = false := by
  unfold editExistingLines
  rw [if_neg (by simp [h])]
  by_cases hb : targetLine < 1 ∨ (s.lines.length : Int) < targetLine
  · rw [if_pos hb]
    exact replaceAndAppendLine_releases fuel text s.cursor s h
  · rw [if_neg hb]
    cases fuel <;> rfl

lemma addCommentAtLine_releases (fuel : Option Nat) (text : List Char)
    (targetLine : Int) (s : EdState) (h : s.isTyping = false) :
    (addCommentAtLine fuel text targetLine s).1.isTyping = false := by
  unfold addCommentAtLine
  rw [if_neg (by simp [h])]
  by_cases hb : targetLine < 1 ∨ (s.lines.length : Int) < targetLine
  · rw [if_pos hb]
    exact addInlineComment_releases fuel text s.cursor s h
  · rw [if_neg hb]
    cases fuel <;> rfl

lemma rawTypeFallback_releases (fuel : Option Nat) (text : List Char)
    (s : EdState) (h : s.isTyping = false) :
    (rawTypeFallback fuel text s).1.isTyping = false := by
  simp [rawTypeFallback, h, typeString_isTyping]

lemma errNewlineFallback_releases (s : EdState) (h : s.isTyping = false) :
    (errNewlineFallback s).isTyping = false := by
  simp [errNewlineFallback, h, typeString_isTyping]

lemma applyActionCore_releases (fuel : Option Nat) (idx targetLine : Int)
    (text : List Char) (pos : Pos) (s : EdState) (h : s.isTyping = false) :
    (applyActionCore fuel idx targetLine text pos s).1.isTyping = false := by
  unfold applyActionCore
  split_ifs
  · exact h
  · exact fillPartialLine_releases fuel text pos s h
  · exact replaceAndAppendLine_releases fuel text pos s h
  · exact editExistingLines_releases fuel text targetLine s h
  · exact addInlineComment_releases fuel text pos s h
  · exact addCommentAtLine_releases fuel text targetLine s h
  · exact rawTypeFallback_releases fuel text s h

lemma applyAction_releases (fuel : Option Nat) (idx targetLine : Int)
    (text : List Char) (pos : Pos) (s : EdState) (h : s.isTyping = false) :
    (applyAction fuel idx targetLine text pos s).isTyping = false := by
  have h1 := applyActionCore_releases fuel idx targetLine text pos s h
  unfold applyAction
  by_cases h2 : (applyActionCore fuel idx targetLine text pos s).2 = true
  · simp only [h2, if_pos rfl]
    exact errNewlineFallback_releases _ h1
  · simp only [Bool.not_eq_true] at h2
    simp only [h2, Bool.false_eq_true, if_false]
    exact h1

lemma rawTypeFallback_measure (fuel : Option Nat) (text : List Char)
    (s : EdState) (h : s.isTyping = false) (hv : validCursor s) :
    docMeasure (rawTypeFallback fuel text s).1.lines =
      docMeasure s.lines + (typedText fuel text).length ∧
    validCursor (rawTypeFallback fuel text s).1 := by
  have hm := typeString_measure (typedText fuel text)
      { s with isTyping := true } hv
  unfold rawTypeFallback
  rw [if_neg (by simp [h])]
  exact hm

lemma errNewlineFallback_measure (s : EdState) (h : s.isTyping = false)
    (hv : validCursor s) :
    docMeasure (errNewlineFallback s).lines = docMeasure s.lines + 1 := by
  have hm := typeString_measure (typedText none ['\n'])
      { s with isTyping := true } hv
  unfold errNewlineFallback
  rw [if_neg (by simp [h])]
  simpa using hm.1

lemma zeroStylePairs_eq (n : Nat) :
    zeroStylePairs n = (List.replicate n [Actor.human, Actor.assistant]).flatten := by
  induction n with
  | zero => rfl
  | succ n ih => simp [zeroStylePairs, List.replicate_succ, ih]

@[simp] lemma beq_actor_hh : (Actor.human == Actor.human) = true := rfl

@[simp] lemma beq_actor_aa : (Actor.assistant == Actor.assistant) = true := rfl

@[simp] lemma beq_actor_ha : (Actor.human == Actor.assistant) = false := rfl

@[simp] lemma beq_actor_ah : (Actor.assistant == Actor.human) = false := rfl

lemma count_zeroStylePairs_assistant (n : Nat) :
    List.count Actor.assistant (zeroStylePairs n) = n := by
  induction n with
  | zero => rfl
  | succ n ih => simp [zeroStylePairs, List.count_cons, ih]

lemma count_zeroStylePairs_human (n : Nat) :
    List.count Actor.human (zeroStylePairs n) = n := by
  induction n with
  | zero => rfl
  | succ n ih => simp [zeroStylePairs, List.count_cons, ih]

lemma count_replicate_human (m : Nat) :
    List.count Actor.human (List.replicate m Actor.human) = m := by
  induction m with
  | zero => rfl
  | succ m ih => simp [List.replicate_succ, List.count_cons, ih]

lemma count_replicate_assistant (m : Nat) :
    List.count Actor.assistant (List.replicate m Actor.human) = 0 := by
  induction m with
  | zero => rfl
  | succ m ih => simp [List.replicate_succ, List.count_cons, ih]

lemma handshakeStep_fixed (e : HandshakeEvent) :
    handshakeStep ⟨true, false, 1⟩ e = ⟨true, false, 1⟩ := by
  cases e <;> rfl

lemma handshakeRun_fixed (evs : List HandshakeEvent) :
    evs.foldl handshakeStep ⟨true, false, 1⟩ = ⟨true, false, 1⟩ := by
  induction evs with
  | nil => rfl
  | cons e t ih => rw [List.foldl_cons, handshakeStep_fixed, ih]

lemma handshakeStep_init (e : HandshakeEvent) :
    handshakeStep handshakeInit e = ⟨true, false, 1⟩ := by
  cases e <;> rfl

/-! ## Claims -/

/-- C1: in the paired schedule with `assistantActionLimit = N > 0` and
effective `humanFollowUpCount = M` (the constructor guarantees `M ≥ 1`
whenever the paired schedule is selected, see C7), an uninterrupted run
attempts exactly `N` assistant turns and `N + M` human turns: `N`
strict human-then-assistant pairs followed by `M` human-only turns. -/
theorem pairedScheduleCounts (N M : Nat) (hN : 0 < N) (hM : 1 ≤ M) :
    List.count Actor.assistant (startZeroStyleSequence N M) = N ∧
    List.count Actor.human (startZeroStyleSequence N M) = N + M ∧
    startZeroStyleSequence N M =
      (List.replicate N [Actor.human, Actor.assistant]).flatten ++
        List.replicate M Actor.human := by
  have hmax : max 1 M = M := Nat.max_eq_right hM
  unfold startZeroStyleSequence
  rw [hmax]
  refine ⟨?_, ?_, by rw [zeroStylePairs_eq]⟩
  · rw [List.count_append, count_zeroStylePairs_assistant,
      count_replicate_assistant]
    rfl
  · rw [List.count_append, count_zeroStylePairs_human, count_replicate_human]


theorem pairedScheduleCounts_witness :
    0 < 2 ∧ 1 ≤ 1 ∧
    List.count Actor.assistant (startZeroStyleSequence 2 1) = 2 :=
  ⟨by decide, by decide, (pairedScheduleCounts 2 1 (by decide) (by decide)).1⟩

/-- C2 counterexample: the claim types the first payload line trimmed
of its leading whitespace only, but the source applies JavaScript
`trim`, which also removes trailing whitespace.  With payload `"a "`
on the document line `"xy"` the source produces the line `"a"` while
the claim's reading produces `"a "`. -/
theorem replaceAndAppend_counterexample :
    replaceAndAppendLine none ['a', ' '] ⟨1, 1⟩ ⟨[['x', 'y']], ⟨1, 1⟩, false⟩ ≠
    replaceAndAppendClaimSpec none ['a', ' '] ⟨1, 1⟩
      ⟨[['x', 'y']], ⟨1, 1⟩, false⟩ := by decide

/-- C2 amended: a REPLACE_AND_APPEND action clears the current line's
content after its leading indentation, repositions the cursor to just
after the indentation, and types the payload with its first line
trimmed of leading AND trailing whitespace and every subsequent payload
line prefixed with the original line's indentation. -/
theorem replaceAndAppend_amended (fuel : Option Nat) (text : List Char)
    (pos : Pos) (s : EdState) :
    replaceAndAppendLine fuel text pos s =
      replaceAndAppendAmendedSpec fuel text pos s := by
  unfold replaceAndAppendLine replaceAndAppendAmendedSpec replaceRangeInLine
  by_cases hT : s.isTyping = true
  · rw [if_pos hT, if_pos hT]
  · rw [if_neg hT, if_neg hT]
    simp only [Nat.add_sub_cancel, take_length_getIndentation,
      List.drop_length, List.append_nil, List.nil_append]

/-- C3: an EDIT_EXISTING_LINES action whose target line is out of
bounds is applied at the current cursor via the REPLACE_AND_APPEND
path, and an EXPLAIN_MULTI_LINE action with an out-of-bounds target
falls back to EXPLAIN_SINGLE_LINE at the cursor. -/
theorem outOfBoundsRedirect (fuel : Option Nat) (text : List Char)
    (targetLine : Int) (s : EdState)
    (h : targetLine < 1 ∨ (s.lines.length : Int) < targetLine) :
    editExistingLines fuel text targetLine s =
      replaceAndAppendLine fuel text s.cursor s ∧
    addCommentAtLine fuel text targetLine s =
      addInlineComment fuel text s.cursor s := by
  constructor
  · by_cases hT : s.isTyping = true
    · simp [editExistingLines, replaceAndAppendLine, hT]
    · unfold editExistingLines
      rw [if_neg hT, if_pos h]
  · by_cases hT : s.isTyping = true
    · simp [addCommentAtLine, addInlineComment, hT]
    · unfold addCommentAtLine
      rw [if_neg hT, if_pos h]

theorem outOfBoundsRedirect_witness :
    ((7 : Int) < 1 ∨ ((⟨[['x']], ⟨1, 2⟩, false⟩ : EdState).lines.length : Int) < 7) ∧
    editExistingLines none ['a'] 7 ⟨[['x']], ⟨1, 2⟩, false⟩ =
      replaceAndAppendLine none ['a'] (⟨[['x']], ⟨1, 2⟩, false⟩ : EdState).cursor
        ⟨[['x']], ⟨1, 2⟩, false⟩ :=
  ⟨by decide,
    (outOfBoundsRedirect none ['a'] 7 ⟨[['x']], ⟨1, 2⟩, false⟩ (by decide)).1⟩

/-- C5 counterexample: a scheduled turn dropped because the processing
lock is held DOES increment the statistics: `executeAction` increments
`stats.totalActions` unconditionally after the dispatch, so the claim
that "the simulation statistics are not incremented" on a
lock-contention skip is false. -/
theorem lockSkip_counterexample :
    (⟨⟨[[]], ⟨1, 1⟩, false⟩, true, 0, 0⟩ : SimState).isProcessing = true ∧
    (executeAction TurnKind.humanTurn none none
        ⟨⟨[[]], ⟨1, 1⟩, false⟩, true, 0, 0⟩).totalActions ≠
      (⟨⟨[[]], ⟨1, 1⟩, false⟩, true, 0, 0⟩ : SimState).totalActions := by decide

/-- C5 amended: a scheduled turn dropped because the processing lock is
held leaves the document, cursor, locks and timestep unchanged, but
`stats.totalActions` is still incremented by one, exactly as for an
executed turn; the skip is therefore NOT observable as an absent stats
increment. -/
theorem lockSkip_amended (kind : TurnKind)
    (oracle : Option (Int × Int × List Char)) (fuel : Option Nat)
    (s : SimState) (h : s.isProcessing = true) :
    executeAction kind oracle fuel s =
      { s with totalActions := s.totalActions + 1 } := by
  cases kind <;>
    simp [executeAction, generateAndApplyHumanAction,
      generateAndApplyAssistantAction, h]

theorem lockSkip_witness :
    (⟨⟨[['q']], ⟨1, 1⟩, false⟩, true, 4, 2⟩ : SimState).isProcessing = true ∧
    executeAction TurnKind.assistantTurn none none
        ⟨⟨[['q']], ⟨1, 1⟩, false⟩, true, 4, 2⟩ =
      ⟨⟨[['q']], ⟨1, 1⟩, false⟩, true, 5, 2⟩ :=
  ⟨rfl, lockSkip_amended TurnKind.assistantTurn none none
    ⟨⟨[['q']], ⟨1, 1⟩, false⟩, true, 4, 2⟩ rfl⟩

/-- C6 counterexample: with `minActionDelayMs = 1000` provided and no
`maxActionDelayMs`, the constructor keeps the default maximum 900, so
`maxActionDelayMs < minActionDelayMs` after construction — the claimed
invariant `max ≥ min` does not hold for every input configuration. -/
theorem delayClamp_counterexample :
    (mkSimulator { minActionDelayMs := some 1000 }).maxActionDelayMs <
      (mkSimulator { minActionDelayMs := some 1000 }).minActionDelayMs := by
  decide

/-- C6 amended: `maxActionDelayMs ≥ minActionDelayMs` holds after
construction whenever the effective minimum does not exceed the default
maximum (900), or a numeric `maxActionDelayMs ≥` the effective minimum
was provided; likewise for the typing delays with default maximum 130.
Outside these conditions (a provided minimum above the default maximum
with no valid maximum) the invariant fails; invalid numeric inputs are
replaced by defaults, never rejected. -/
theorem delayClamp_amended (cfg : SimulationConfig) :
    (((mkSimulator cfg).minActionDelayMs ≤ 900 ∨
        ∃ m, cfg.maxActionDelayMs = some m ∧
          (mkSimulator cfg).minActionDelayMs ≤ m) →
      (mkSimulator cfg).minActionDelayMs ≤ (mkSimulator cfg).maxActionDelayMs) ∧
    (((mkSimulator cfg).minTypingDelayMs ≤ 130 ∨
        ∃ m, cfg.maxTypingDelayMs = some m ∧
          (mkSimulator cfg).minTypingDelayMs ≤ m) →
      (mkSimulator cfg).minTypingDelayMs ≤ (mkSimulator cfg).maxTypingDelayMs) := by
  constructor
  · intro h
    show effMinActionDelay cfg ≤ effMaxActionDelay cfg
    unfold effMaxActionDelay
    cases hm : cfg.maxActionDelayMs with
    | none =>
      rcases h with h | ⟨m, hm2, _⟩
      · exact h
      · rw [hm] at hm2; cases hm2
    | some v =>
      show effMinActionDelay cfg ≤ if effMinActionDelay cfg ≤ v then v else 900
      by_cases hle : effMinActionDelay cfg ≤ v
      · rw [if_pos hle]; exact hle
      · rw [if_neg hle]
        rcases h with h | ⟨m, hm2, hm3⟩
        · exact h
        · rw [hm] at hm2
          cases hm2
          exact absurd hm3 hle
  · intro h
    show effMinTypingDelay cfg ≤ effMaxTypingDelay cfg
    unfold effMaxTypingDelay
    cases hm : cfg.maxTypingDelayMs with
    | none =>
      rcases h with h | ⟨m, hm2, _⟩
      · exact h
      · rw [hm] at hm2; cases hm2
    | some v =>
      show effMinTypingDelay cfg ≤ if effMinTypingDelay cfg ≤ v then v else 130
      by_cases hle : effMinTypingDelay cfg ≤ v
      · rw [if_pos hle]; exact hle
      · rw [if_neg hle]
        rcases h with h | ⟨m, hm2, hm3⟩
        · exact h
        · rw [hm] at hm2
          cases hm2
          exact absurd hm3 hle

theorem delayClamp_witness :
    ((mkSimulator {}).minActionDelayMs ≤ 900 ∨
      ∃ m, ({} : SimulationConfig).maxActionDelayMs = some m ∧
        (mkSimulator {}).minActionDelayMs ≤ m) ∧
    (mkSimulator {}).minActionDelayMs ≤ (mkSimulator {}).maxActionDelayMs :=
  ⟨Or.inl (by decide), (delayClamp_amended {}).1 (Or.inl (by decide))⟩

/-- C7 counterexample: providing `maxAssistantActions = 0` together with
`humanFollowUpCount = 0` still yields an effective follow-up count of 1:
the floor of 1 applies whenever `maxAssistantActions` is defined,
including when it is 0, contradicting the claim that no floor is
applied when the assistant limit is 0. -/
theorem followUpFloor_counterexample :
    (mkSimulator { maxAssistantActions := some 0, humanFollowUpActions := some 0 }).humanFollowUpActions = 1 := by
  decide

/-- C7 amended: the effective `humanFollowUpCount` is always `≥ 0`;
whenever `maxAssistantActions` is provided (any value, including 0) it
is `max(1, provided follow-up ?? 1)`; only when `maxAssistantActions`
is absent is no floor of 1 applied, the value then being
`max(0, humanFollowUpActions)`, else `max(0, maxActions)`, else 0. -/
theorem followUpFloor_amended (cfg : SimulationConfig) :
    0 ≤ (mkSimulator cfg).humanFollowUpActions ∧
    (∀ n, cfg.maxAssistantActions = some n →
      (mkSimulator cfg).humanFollowUpActions =
        max 1 (cfg.humanFollowUpActions.getD 1)) ∧
    (cfg.maxAssistantActions = none →
      (mkSimulator cfg).humanFollowUpActions =
        match cfg.humanFollowUpActions, cfg.maxActions with
        | some v, _ => max 0 v
        | none, some m => max 0 m
        | none, none => 0) := by
  refine ⟨?_, ?_, ?_⟩
  · show 0 ≤ effHumanFollowUp cfg
    unfold effHumanFollowUp
    cases cfg.maxAssistantActions with
    | some n => exact le_trans zero_le_one (le_max_left _ _)
    | none =>
      cases cfg.humanFollowUpActions with
      | some v => exact le_max_left _ _
      | none =>
        cases cfg.maxActions with
        | some m => exact le_max_left _ _
        | none => exact le_refl 0
  · intro n hn
    show effHumanFollowUp cfg = _
    unfold effHumanFollowUp
    rw [hn]
  · intro hn
    show effHumanFollowUp cfg = _
    unfold effHumanFollowUp
    rw [hn]
    cases cfg.humanFollowUpActions <;> cases cfg.maxActions <;> rfl

theorem followUpFloor_witness :
    ({ maxAssistantActions := some 3, humanFollowUpActions := some 0 } : SimulationConfig).maxAssistantActions = some 3 ∧
    (mkSimulator { maxAssistantActions := some 3, humanFollowUpActions := some 0 }).humanFollowUpActions =
      max 1 ((some (0 : Int)).getD 1) :=
  ⟨rfl, (followUpFloor_amended
    { maxAssistantActions := some 3, humanFollowUpActions := some 0 }).2.1 3 rfl⟩

/-- C8: `stop()` is idempotent — when the sequencer is not running it
returns immediately without changing state, and therefore two
back-to-back `stop()` calls (at any wall-clock times) leave exactly the
state a single call produces. -/
theorem stopIdempotent :
    (∀ (t1 t2 : Int) (s : SeqState), stop t2 (stop t1 s) = stop t1 s) ∧
    (∀ (t : Int) (s : SeqState), s.isRunning = false → stop t s = s) := by
  constructor
  · intro t1 t2 s
    by_cases h : s.isRunning = true <;> simp [stop, h]
  · intro t s h
    simp [stop, h]

theorem stopIdempotent_witness :
    (⟨false, false, false, 0, 7, none⟩ : SeqState).isRunning = false ∧
    stop 3 ⟨false, false, false, 0, 7, none⟩ =
      ⟨false, false, false, 0, 7, none⟩ :=
  ⟨rfl, stopIdempotent.2 3 ⟨false, false, false, 0, 7, none⟩ rfl⟩

/-- C10: the shutdown handshake's completion signal is one-shot — over
any sequence of acknowledgment/timeout events, `resolve` runs at most
once; and once any event has fired, the signal is resolved (so `stop()`
completes), with no timeout left pending. -/
theorem handshakeOnce (evs : List HandshakeEvent) :
    (runHandshake evs).resolveCount ≤ 1 ∧
    (evs ≠ [] →
      (runHandshake evs).resolved = true ∧
      (runHandshake evs).timeoutPending = false ∧
      (runHandshake evs).resolveCount = 1) := by
  cases evs with
  | nil => exact ⟨by decide, fun h => absurd rfl h⟩
  | cons e t =>
    have hrun : runHandshake (e :: t) = ⟨true, false, 1⟩ := by
      unfold runHandshake
      rw [List.foldl_cons, handshakeStep_init, handshakeRun_fixed]
    rw [hrun]
    exact ⟨by decide, fun _ => ⟨rfl, rfl, rfl⟩⟩

theorem handshakeOnce_witness :
    ([HandshakeEvent.listenerAck, HandshakeEvent.timeoutFire] ≠
      ([] : List HandshakeEvent)) ∧
    (runHandshake [HandshakeEvent.listenerAck,
        HandshakeEvent.timeoutFire]).resolveCount = 1 :=
  ⟨by decide,
    ((handshakeOnce [HandshakeEvent.listenerAck,
      HandshakeEvent.timeoutFire]).2 (by decide)).2.2⟩

/-- C4: a response whose action index lies outside the 7 known values
(0 through 6) makes the Edit Applier degrade to raw character typing of
the payload: the dispatch selects the fallback-typing arm (never the
NO_OP arm), the `switch` body equals the raw-typing path on the raw
payload, and — when the typing lock is free, the payload nonempty and
the cursor valid — the resulting document state differs from the NO_OP
result (the untouched state). -/
theorem unknownActionFallback (fuel : Option Nat) (idx targetLine : Int)
    (text : List Char) (pos : Pos) (s : EdState)
    (h : idx < 0 ∨ 6 < idx) :
    applyActionPath idx = ActionPath.fallbackTyping ∧
    ActionPath.fallbackTyping ≠ ActionPath.noOp ∧
    applyActionCore fuel idx targetLine text pos s =
      rawTypeFallback fuel text s ∧
    (s.isTyping = false → text ≠ [] → validCursor s →
      applyAction fuel idx targetLine text pos s ≠ s) := by
  have h0 : ¬idx = 0 := by omega
  have h1 : ¬idx = 1 := by omega
  have h23 : ¬(idx = 2 ∨ idx = 3) := by omega
  have h4 : ¬idx = 4 := by omega
  have h5 : ¬idx = 5 := by omega
  have h6 : ¬idx = 6 := by omega
  have hcore : applyActionCore fuel idx targetLine text pos s =
      rawTypeFallback fuel text s := by
    unfold applyActionCore
    rw [if_neg h0, if_neg h1, if_neg h23, if_neg h4, if_neg h5, if_neg h6]
  refine ⟨?_, by decide, hcore, ?_⟩
  · unfold applyActionPath
    rw [if_neg h0, if_neg h1, if_neg h23, if_neg h4, if_neg h5, if_neg h6]
  · intro hT hne hv heq
    have hm := rawTypeFallback_measure fuel text s hT hv
    have happ : applyAction fuel idx targetLine text pos s =
        if (rawTypeFallback fuel text s).2 then
          errNewlineFallback (rawTypeFallback fuel text s).1
        else (rawTypeFallback fuel text s).1 := by
      unfold applyAction
      rw [hcore]
    cases hfuel : fuel with
    | none =>
      have h2 : (rawTypeFallback none text s).2 = false := by
        simp [rawTypeFallback, hT]
      rw [hfuel] at happ heq hm
      rw [happ, h2, if_neg (by simp)] at heq
      have hmm := congrArg (fun st : EdState => docMeasure st.lines) heq
      simp only at hmm
      have hlen : (typedText none text).length = text.length := rfl
      rw [hm.1, hlen] at hmm
      have hne2 : text.length ≠ 0 := fun h9 => hne (List.length_eq_zero.mp h9)
      omega
    | some k =>
      have h2 : (rawTypeFallback (some k) text s).2 = true := by
        simp [rawTypeFallback, hT]
      rw [hfuel] at happ heq hm
      rw [happ, h2, if_pos rfl] at heq
      have hrel := rawTypeFallback_releases (some k) text s hT
      have hm2 := errNewlineFallback_measure _ hrel hm.2
      have hmm := congrArg (fun st : EdState => docMeasure st.lines) heq
      simp only at hmm
      rw [hm2, hm.1] at hmm
      omega

theorem unknownActionFallback_witness :
    ((9 : Int) < 0 ∨ 6 < (9 : Int)) ∧
    applyAction none 9 0 ['z'] ⟨1, 2⟩ ⟨[['x']], ⟨1, 2⟩, false⟩ ≠
      (⟨[['x']], ⟨1, 2⟩, false⟩ : EdState) :=
  ⟨by decide,
    (unknownActionFallback none 9 0 ['z'] ⟨1, 2⟩ ⟨[['x']], ⟨1, 2⟩, false⟩
      (by decide)).2.2.2 rfl (by decide) ⟨by decide, by decide⟩⟩

/-- C9: every typing-path edit operation (fill-partial-line,
replace-and-append, edit-existing-lines, both explain-comment variants,
the raw-typing fallback, and `applyAction` as a whole) releases the
typing lock on every exit path, the exception path included (arbitrary
`fuel`): starting with the lock free, the lock is free again after the
operation completes. -/
theorem typingLockReleased (fuel : Option Nat) (idx targetLine : Int)
    (text : List Char) (pos : Pos) (s : EdState)
    (h : s.isTyping = false) :
    (fillPartialLine fuel text pos s).1.isTyping = false ∧
    (replaceAndAppendLine fuel text pos s).1.isTyping = false ∧
    (editExistingLines fuel text targetLine s).1.isTyping = false ∧
    (addInlineComment fuel text pos s).1.isTyping = false ∧
    (addCommentAtLine fuel text targetLine s).1.isTyping = false ∧
    (rawTypeFallback fuel text s).1.isTyping = false ∧
    (applyAction fuel idx targetLine text pos s).isTyping = false :=
  ⟨fillPartialLine_releases fuel text pos s h,
    replaceAndAppendLine_releases fuel text pos s h,
    editExistingLines_releases fuel text targetLine s h,
    addInlineComment_releases fuel text pos s h,
    addCommentAtLine_releases fuel text targetLine s h,
    rawTypeFallback_releases fuel text s h,
    applyAction_releases fuel idx targetLine text pos s h⟩

theorem typingLockReleased_witness :
    (⟨[['x']], ⟨1, 2⟩, false⟩ : EdState).isTyping = false ∧
    (applyAction (some 1) 4 1 ['a', '\n', 'b'] ⟨1, 2⟩
      ⟨[['x']], ⟨1, 2⟩, false⟩).isTyping = false :=
  ⟨rfl, (typingLockReleased (some 1) 4 1 ['a', '\n', 'b'] ⟨1, 2⟩
    ⟨[['x']], ⟨1, 2⟩, false⟩ rfl).2.2.2.2.2.2⟩

end CodeAssist
